import Mathlib

/-
Verification of the gobench benchmark-indexing pipeline (main.go).

The development shallowly embeds the line-oriented parser and
document-assembly pipeline: the extra-metrics extractor
(`parseExtraMetrics`), the benchmark-line parser (the pinned
`golang.org/x/tools/benchmark/parse.ParseLine` dependency), the document
assembler and index-action encoder (`encodeIndexOp`), the mapping-creation
body (`createMapping`), the semver comparison used for the version
thresholds (`blang/semver`), and the stream driver of `main`.

Strings are modelled as Lean `String` (`List Char` underneath); Go byte
slicing is done here by chars, which coincides on the ASCII prefixes the
code slices.  Go `float64` values are modelled as exact rationals `ℚ`:
the decimal grammar of `strconv.ParseFloat` is embedded (hexadecimal
floats, "Inf"/"NaN" forms and rounding to binary are outside the claims
checked here).  Machine integers are `Int`/`Nat` with explicit range
checks and `% 2^64` where the source converts.
-/

set_option maxHeartbeats 1000000

namespace Gobench

/-- Whitespace recognition of Go `unicode.IsSpace` (the characters of the
Unicode White_Space property). -/
def isGoSpace (c : Char) : Bool :=
  c = ' ' || ('\t' ≤ c && c ≤ '\x0d') || c = '\x85' || c = '\xa0' ||
  c.val = 0x1680 || (0x2000 ≤ c.val && c.val ≤ 0x200a) ||
  c.val = 0x2028 || c.val = 0x2029 || c.val = 0x202f ||
  c.val = 0x205f || c.val = 0x3000

/-- Go `strings.TrimSpace`: drop leading and trailing whitespace. -/
def goTrimSpace (s : String) : String :=
  String.mk (((s.toList.dropWhile isGoSpace).reverse.dropWhile isGoSpace).reverse)

/-- Prefix test on character lists (first argument is the pattern). -/
def listHasPfx : List Char → List Char → Bool
  | [], _ => true
  | _ :: _, [] => false
  | p :: ps, c :: cs => p = c && listHasPfx ps cs

/-- Go `strings.HasPrefix s pre`. -/
def goHasPfx (s pat : String) : Bool :=
  listHasPfx pat.toList s.toList

/-- Drop the first `n` characters; used for `line[len("pkg:"):]` slices,
whose prefixes are ASCII so byte and char offsets coincide. -/
def goDrop (s : String) (n : Nat) : String :=
  String.mk (s.toList.drop n)

/-- Split a character list at every occurrence of `sep`; always returns at
least one (possibly empty) group, like Go `strings.Split` with a
one-character separator. -/
def splitOnChar (sep : Char) : List Char → List (List Char)
  | [] => [[]]
  | c :: cs =>
    let rest := splitOnChar sep cs
    if c = sep then [] :: rest
    else
      match rest with
      | g :: gs => (c :: g) :: gs
      | [] => [[c]]

/-- Go `strings.Split s (String sep)` for a one-character separator. -/
def goSplit (s : String) (sep : Char) : List String :=
  (splitOnChar sep s.toList).map String.mk

/-- Go `strings.Fields`: the maximal runs of non-whitespace characters. -/
def goFields (s : String) : List String :=
  ((splitOnChar ' ' (s.toList.map (fun c => if isGoSpace c then ' ' else c))).map
    String.mk).filter (fun f => f ≠ "")

/-- Value of a digit list read in base 10. -/
def digitsToNat (ds : List Char) : Nat :=
  ds.foldl (fun n c => n * 10 + (c.toNat - '0'.toNat)) 0

/-- Go `strconv.Atoi` (= `ParseInt` base 10, 64-bit): optional sign, one or
more digits, in-range for `int64`. -/
def atoi? (s : String) : Option Int :=
  let cs := s.toList
  let sgn : Bool × List Char :=
    match cs with
    | '+' :: rest => (false, rest)
    | '-' :: rest => (true, rest)
    | _ => (false, cs)
  let neg := sgn.1
  let ds := sgn.2
  if ds.isEmpty then none
  else if ¬ ds.all Char.isDigit then none
  else
    let n : Nat := digitsToNat ds
    let v : Int := if neg then -(n : Int) else (n : Int)
    if v < -(2 ^ 63) ∨ v > 2 ^ 63 - 1 then none else some v

/-- Outcome of scanning the exponent suffix of a float literal: whether it
is well-formed, its sign, its digits, and the remaining characters. -/
structure ExpScan where
  ok : Bool
  neg : Bool
  digits : List Char
  rest : List Char

/-- Scan an optional `e`/`E` exponent suffix. -/
def scanExp (cs : List Char) : ExpScan :=
  match cs with
  | [] => ⟨true, false, [], []⟩
  | e :: rest =>
    if e = 'e' ∨ e = 'E' then
      let sgn : Bool × List Char :=
        match rest with
        | '+' :: r => (false, r)
        | '-' :: r => (true, r)
        | _ => (false, rest)
      let ds := sgn.2.takeWhile Char.isDigit
      let tail := sgn.2.dropWhile Char.isDigit
      if ds.isEmpty then ⟨false, false, [], tail⟩
      else ⟨true, sgn.1, ds, tail⟩
    else ⟨false, false, [], cs⟩

/-- Powers of ten. -/
def pow10 : Nat → Nat
  | 0 => 1
  | n + 1 => 10 * pow10 n

/-- Go `strconv.ParseFloat` on its decimal grammar, with exact rational
semantics: `[sign] digits [. digits] [e [sign] digits]` where the mantissa
has at least one digit and the whole string is consumed. -/
def parseFloat? (s : String) : Option ℚ :=
  let cs := s.toList
  let sgn : Bool × List Char :=
    match cs with
    | '+' :: rest => (false, rest)
    | '-' :: rest => (true, rest)
    | _ => (false, cs)
  let neg := sgn.1
  let intDs := sgn.2.takeWhile Char.isDigit
  let afterInt := sgn.2.dropWhile Char.isDigit
  let frac : List Char × List Char :=
    match afterInt with
    | '.' :: rest => (rest.takeWhile Char.isDigit, rest.dropWhile Char.isDigit)
    | _ => ([], afterInt)
  let fracDs := frac.1
  if intDs.isEmpty ∧ fracDs.isEmpty then none
  else
    let e := scanExp frac.2
    if ¬ e.ok ∨ ¬ e.rest.isEmpty then none
    else
      let mantissa : Nat := digitsToNat (intDs ++ fracDs)
      let expVal : Int :=
        (if e.neg then -(digitsToNat e.digits : Int) else (digitsToNat e.digits : Int))
          - (fracDs.length : Int)
      let m : Int := if neg then -(mantissa : Int) else (mantissa : Int)
      some (if 0 ≤ expVal then mkRat (m * (pow10 expVal.toNat : Int)) 1
        else mkRat m (pow10 (-expVal).toNat))

/-- Go map assignment `m[k] = v` on an association-list representation:
replace the value of an existing key in place, otherwise append. -/
def upsert {α : Type} : List (String × α) → String → α → List (String × α)
  | [], k, v => [(k, v)]
  | (k', v') :: rest, k, v =>
    if k' = k then (k', v) :: rest else (k', v') :: upsert rest k v

/-- Go map read `m[k]` on the association-list representation. -/
def getKV {α : Type} (k : String) : List (String × α) → Option α
  | [] => none
  | (k', v) :: rest => if k' = k then some v else getKV k rest

/-- Go `strings.ReplaceAll key "/" "_"` as used in `parseExtraMetrics`. -/
def escapeKey (key : String) : String :=
  String.mk (key.toList.map (fun c => if c = '/' then '_' else c))

/-- The loop body of `parseExtraMetrics` for one trailing tab column:
split the trimmed column on single spaces, parse `parts[0]` as a float,
skip the four native benchmark labels, and store the parsed value keyed by
the slash-escaped `parts[1]`. -/
def extraStep (acc : List (String × ℚ)) (entry : String) : List (String × ℚ) :=
  match goSplit (goTrimSpace entry) ' ' with
  | p0 :: p1 :: _ =>
    let key := goTrimSpace p1
    match parseFloat? (goTrimSpace p0) with
    | none => acc
    | some value =>
      if key = "ns/op" ∨ key = "MB/s" ∨ key = "B/op" ∨ key = "allocs/op" then acc
      else upsert acc (escapeKey key) value
  | _ => acc

/-- The `parseExtraMetrics` function from main.go: tab-split the line, require at least
3 columns, fold the remaining columns, and return `none` (Go `nil`) when
the resulting map is empty. -/
def parseExtraMetrics (line : String) : Option (List (String × ℚ)) :=
  let entries := goSplit line '\t'
  if entries.length < 3 then none
  else
    let result := List.foldl extraStep [] (entries.drop 3)
    if result.length > 0 then some result else none

/-- The `parse.Benchmark` record of the pinned `golang.org/x/tools/benchmark/parse`
dependency: name, iteration count, the four standard measurements and the
`Measured` bitmask (NsPerOp = 1, MBPerS = 2, AllocedBytesPerOp = 4,
AllocsPerOp = 8). -/
structure Benchmark where
  name : String
  n : Int
  nsPerOp : ℚ
  mbPerS : ℚ
  allocedBytesPerOp : Nat
  allocsPerOp : Nat
  measured : Nat
deriving DecidableEq

/-- The `parseMeasurement` method of the pinned parse dependency: set
one standard measurement and its flag when the unit label matches and the
quantity parses. -/
def parseMeasurement (b : Benchmark) (quant unit : String) : Benchmark :=
  if unit = "ns/op" then
    match parseFloat? quant with
    | some f => ⟨b.name, b.n, f, b.mbPerS, b.allocedBytesPerOp, b.allocsPerOp, b.measured ||| 1⟩
    | none => b
  else if unit = "MB/s" then
    match parseFloat? quant with
    | some f => ⟨b.name, b.n, b.nsPerOp, f, b.allocedBytesPerOp, b.allocsPerOp, b.measured ||| 2⟩
    | none => b
  else if unit = "B/op" then
    match atoi? quant with
    | some i => ⟨b.name, b.n, b.nsPerOp, b.mbPerS, (i % (2 : Int) ^ 64).toNat, b.allocsPerOp, b.measured ||| 4⟩
    | none => b
  else if unit = "allocs/op" then
    match atoi? quant with
    | some i => ⟨b.name, b.n, b.nsPerOp, b.mbPerS, b.allocedBytesPerOp, (i % (2 : Int) ^ 64).toNat, b.measured ||| 8⟩
    | none => b
  else b

/-- The `parse.ParseLine` function of the pinned parse dependency (the Benchmark
Record Parser of the spec, which main.go only calls): whitespace-fields,
at least four of them, a `Benchmark`-prefixed name, an integer iteration
count, then the remaining pairs of fields as measurements. -/
def ParseLine (line : String) : Option Benchmark :=
  let fields := goFields line
  match fields with
  | f0 :: f1 :: _ =>
    if fields.length < 4 then none
    else if ¬ goHasPfx f0 "Benchmark" then none
    else
      match atoi? f1 with
      | none => none
      | some n =>
        let b0 : Benchmark := ⟨f0, n, 0, 0, 0, 0, 0⟩
        some (((List.range (fields.length / 2)).drop 1).foldl
          (fun b i => parseMeasurement b (fields.getD (2 * i) "") (fields.getD (2 * i + 1) ""))
          b0)
  | _ => none

/-- A prerelease identifier of `blang/semver`: numeric or alphanumeric. -/
inductive PRVersion where
  | num (n : Nat)
  | alnum (s : String)
deriving DecidableEq

/-- The `blang/semver` Version record. -/
structure SemVer where
  major : Nat
  minor : Nat
  patch : Nat
  pre : List PRVersion
deriving DecidableEq

/-- The `PRVersion.Compare` of blang/semver: numeric identifiers sort below
alphanumeric ones, numerics numerically, alphanumerics lexically. -/
def prCompare : PRVersion → PRVersion → Int
  | .num a, .num b => if a < b then -1 else if b < a then 1 else 0
  | .num _, .alnum _ => -1
  | .alnum _, .num _ => 1
  | .alnum a, .alnum b => if a < b then -1 else if b < a then 1 else 0

/-- Pairwise prerelease comparison loop of `Version.Compare`: a shorter
list of otherwise-equal identifiers sorts first. -/
def preCompare : List PRVersion → List PRVersion → Int
  | [], [] => 0
  | [], _ :: _ => -1
  | _ :: _, [] => 1
  | a :: as, b :: bs =>
    let c := prCompare a b
    if c = 0 then preCompare as bs else c

/-- The `Version.Compare` of blang/semver: major, minor, patch, then
prereleases (a version without prerelease sorts above one with). -/
def semverCompare (v o : SemVer) : Int :=
  if v.major ≠ o.major then (if v.major > o.major then 1 else -1)
  else if v.minor ≠ o.minor then (if v.minor > o.minor then 1 else -1)
  else if v.patch ≠ o.patch then (if v.patch > o.patch then 1 else -1)
  else if v.pre.isEmpty ∧ o.pre.isEmpty then 0
  else if v.pre.isEmpty then 1
  else if o.pre.isEmpty then -1
  else preCompare v.pre o.pre

/-- The `Version.LT` of blang/semver. -/
def SemVer.lt (v o : SemVer) : Bool :=
  semverCompare v o < 0

/-- Constant `semver.MustParse "7.0.0"`. -/
def semver700 : SemVer := ⟨7, 0, 0, []⟩

/-- Constant `semver.MustParse "8.0.0"`. -/
def semver800 : SemVer := ⟨8, 0, 0, []⟩

/-- The field-name constants of main.go. -/
abbrev fieldExecutedAt : String := "executed_at"

abbrev fieldName : String := "name"

abbrev fieldIterations : String := "iterations"

abbrev fieldPkg : String := "pkg"

abbrev fieldHostname : String := "hostname"

abbrev fieldGoVersion : String := "go_version"

abbrev fieldOSVersion : String := "os_version"

abbrev fieldGOOS : String := "goos"

abbrev fieldGOARCH : String := "goarch"

abbrev fieldNSPerOp : String := "ns_per_op"

abbrev fieldMBPerS : String := "mb_per_s"

abbrev fieldAllocedBytesPerOp : String := "alloced_bytes_per_op"

abbrev fieldAllocsPerOp : String := "allocs_per_op"

abbrev fieldGit : String := "git"

abbrev fieldExtraMetrics : String := "extra_metrics"

/-- The git block `addVCS` assembles: commit hash, subject, and the
committer date when the unix-seconds field parses. -/
structure GitFacts where
  commit : String
  subject : String
  committerDate : Option Nat
deriving DecidableEq

/-- The best-effort host facts `addHost` can contribute. -/
structure HostFacts where
  hostname : Option String
  osVersion : Option String
deriving DecidableEq

/-- A value stored in the assembled document.  Documents are Go
`map[string]interface{}`; the value shapes that actually occur in
`encodeIndexOp` are enumerated here. -/
inductive JVal where
  | str (s : String)
  | int (n : Int)
  | rat (q : ℚ)
  | time (t : Nat)
  | metrics (m : List (String × ℚ))
  | gitv (g : GitFacts)
deriving DecidableEq

/-- The run-scoped inputs of `encodeIndexOp` other than the per-line data:
index name, `runtime.Version()`, host facts, the VCS lookup (a function of
the package path), the `-tag` pairs, and the run timestamp. -/
structure Config where
  index : String
  goVersion : String
  host : HostFacts
  gitOf : String → Option GitFacts
  tags : List (String × String)
  ts : Nat

/-- The document literal of `encodeIndexOp`: the seven unconditional base
fields. -/
def baseDoc (b : Benchmark) (pkg goVersion goos goarch : String) (ts : Nat) :
    List (String × JVal) :=
  [(fieldExecutedAt, JVal.time ts),
   (fieldName, JVal.str b.name),
   (fieldIterations, JVal.int b.n),
   (fieldPkg, JVal.str pkg),
   (fieldGoVersion, JVal.str goVersion),
   (fieldGOOS, JVal.str goos),
   (fieldGOARCH, JVal.str goarch)]

/-- The four flag-guarded standard measurement fields of `encodeIndexOp`. -/
def addMeasurements (b : Benchmark) (doc : List (String × JVal)) :
    List (String × JVal) :=
  let d1 := if b.measured &&& 1 ≠ 0 then upsert doc fieldNSPerOp (JVal.rat b.nsPerOp) else doc
  let d2 := if b.measured &&& 2 ≠ 0 then upsert d1 fieldMBPerS (JVal.rat b.mbPerS) else d1
  let d3 := if b.measured &&& 4 ≠ 0 then upsert d2 fieldAllocedBytesPerOp (JVal.int b.allocedBytesPerOp) else d2
  if b.measured &&& 8 ≠ 0 then upsert d3 fieldAllocsPerOp (JVal.int b.allocsPerOp) else d3

/-- The guard `if len(b.extra) > 0` adding the extra-metrics field (Go `nil` maps
have length 0 and are modelled by `none`). -/
def addExtra (extra : Option (List (String × ℚ))) (doc : List (String × JVal)) :
    List (String × JVal) :=
  match extra with
  | some m => if m.length > 0 then upsert doc fieldExtraMetrics (JVal.metrics m) else doc
  | none => doc

/-- The `addHost` function from main.go: hostname and OS version, each best-effort. -/
def addHostFacts (host : HostFacts) (doc : List (String × JVal)) :
    List (String × JVal) :=
  let d1 := match host.hostname with
    | some h => upsert doc fieldHostname (JVal.str h)
    | none => doc
  match host.osVersion with
  | some o => upsert d1 fieldOSVersion (JVal.str o)
  | none => d1

/-- The `addVCS` function from main.go, with the git lookup outcome already resolved. -/
def addVCSFacts (git : Option GitFacts) (doc : List (String × JVal)) :
    List (String × JVal) :=
  match git with
  | some g => upsert doc fieldGit (JVal.gitv g)
  | none => doc

/-- The tag-merge loop of `encodeIndexOp`: tags are written last and may
overwrite colliding keys. -/
def addTags (tags : List (String × String)) (doc : List (String × JVal)) :
    List (String × JVal) :=
  List.foldl (fun d p => upsert d p.1 (JVal.str p.2)) doc tags

/-- The document assembled by `encodeIndexOp`, stage by stage in source
order. -/
def buildDoc (cfg : Config) (b : Benchmark) (extra : Option (List (String × ℚ)))
    (pkg goos goarch : String) : List (String × JVal) :=
  addTags cfg.tags
    (addVCSFacts (cfg.gitOf pkg)
      (addHostFacts cfg.host
        (addExtra extra
          (addMeasurements b (baseDoc b pkg cfg.goVersion goos goarch cfg.ts)))))

/-- The fields of the inner index-action object of `encodeIndexOp`: the
struct carries `_index` and a `_type` tagged `omitempty`, and `_type` is
set to `"_doc"` exactly when the store version is below 8.0.0. -/
def encodeIndexAction (index : String) (esVersion : SemVer) : List (String × JVal) :=
  let includeTypDoc := SemVer.lt esVersion semver800
  let typ := if includeTypDoc then "_doc" else ""
  if typ = "" then [("_index", JVal.str index)]
  else [("_index", JVal.str index), ("_type", JVal.str typ)]

/-- One unit written by a `json.Encoder.Encode` call in `encodeIndexOp`. -/
inductive EncUnit where
  | action (fields : List (String × JVal))
  | doc (fields : List (String × JVal))
  | str (s : String)
deriving DecidableEq

/-- The three `Encode` calls of `encodeIndexOp` once the store version is
known: the index action, the document, and the JSON string `"\n"`. -/
def encodeIndexOpUnits (cfg : Config) (v : SemVer) (b : Benchmark)
    (extra : Option (List (String × ℚ))) (pkg goos goarch : String) : List EncUnit :=
  [EncUnit.action (encodeIndexAction cfg.index v),
   EncUnit.doc (buildDoc cfg b extra pkg goos goarch),
   EncUnit.str "\n"]

/-- The `encodeIndexOp` function including its own `getEsVersion` call, whose failure
is `log.Fatal` (modelled as `Except.error`); only on success are any
units encoded. -/
def encodeIndexOp (versionResult : Except String SemVer) (cfg : Config)
    (b : Benchmark) (extra : Option (List (String × ℚ))) (pkg goos goarch : String) :
    Except String (List EncUnit) :=
  match versionResult with
  | Except.error e => Except.error e
  | Except.ok v => Except.ok (encodeIndexOpUnits cfg v b extra pkg goos goarch)

/-- The index-mapping request body of `createMapping`, keeping the JSON
nesting structure; `leafProps` stands for the fixed
`{"properties": ..., "dynamic_templates": [...]}` object, whose contents
no claim concerns. -/
inductive MJ where
  | leafProps
  | node (key : String) (child : MJ)
deriving DecidableEq

/-- The `createMapping` request body: the properties object is wrapped in `_doc`
exactly when the store version is below 7.0.0, then under `mappings`. -/
def createMappingBody (esVersion : SemVer) : MJ :=
  let includeTypeName := SemVer.lt esVersion semver700
  let properties := MJ.leafProps
  let properties := if includeTypeName then MJ.node "_doc" properties else properties
  MJ.node "mappings" properties

/-- The `pkg`/`goos`/`goarch` variables of `main`'s scan loop. -/
structure ScanState where
  pkg : String
  goos : String
  goarch : String
deriving DecidableEq

/-- The zero values of the three context variables. -/
def initState : ScanState := ⟨"", "", ""⟩

/-- The state transition of one loop iteration of `main`: context lines
update their variable with the trimmed payload; other lines leave the
state unchanged. -/
def scanStep (st : ScanState) (line : String) : ScanState :=
  if goHasPfx line "pkg:" then ⟨goTrimSpace (goDrop line 4), st.goos, st.goarch⟩
  else if goHasPfx line "goos:" then ⟨st.pkg, goTrimSpace (goDrop line 5), st.goarch⟩
  else if goHasPfx line "goarch:" then ⟨st.pkg, st.goos, goTrimSpace (goDrop line 7)⟩
  else st

/-- One loop iteration of `main` in the version-ok pipeline: the switch on
context prefixes, then `parse.ParseLine`, and on success the
`parseExtraMetrics` call and `encodeIndexOp`. -/
def processLine (cfg : Config) (v : SemVer) (st : ScanState) (line : String) :
    ScanState × List EncUnit :=
  if goHasPfx line "pkg:" then (⟨goTrimSpace (goDrop line 4), st.goos, st.goarch⟩, [])
  else if goHasPfx line "goos:" then (⟨st.pkg, goTrimSpace (goDrop line 5), st.goarch⟩, [])
  else if goHasPfx line "goarch:" then (⟨st.pkg, st.goos, goTrimSpace (goDrop line 7)⟩, [])
  else
    match ParseLine line with
    | some b => (st, encodeIndexOpUnits cfg v b (parseExtraMetrics line) st.pkg st.goos st.goarch)
    | none => (st, [])

/-- The scan loop of `main`: all units written for the input lines.  The
state is threaded through `scanStep`, which agrees with the first
component of `processLine` (theorem `processLine_fst`). -/
def runUnits (cfg : Config) (v : SemVer) : ScanState → List String → List EncUnit
  | _, [] => []
  | st, l :: ls =>
    (processLine cfg v st l).2 ++ runUnits cfg v (scanStep st l) ls

/-- The context state after a list of lines. -/
def scanAll (st : ScanState) (lines : List String) : ScanState :=
  List.foldl scanStep st lines

/-- The trimmed payload of the most recent line with the given context
marker, or the empty string when there is none. -/
def lastCtx (pat : String) (n : Nat) (lines : List String) : String :=
  ((lines.reverse.find? (fun l => goHasPfx l pat)).map
    (fun l => goTrimSpace (goDrop l n))).getD ""

/-- An observable step of the direct-send run: a `log.Fatal` with its
message, or the final `_bulk` POST with its body. -/
inductive RunEvent where
  | fatal (msg : String)
  | bulkSend (body : List EncUnit)
deriving DecidableEq

/-- Whether a run event is the bulk send. -/
def isBulkSend : RunEvent → Bool
  | .bulkSend _ => true
  | _ => false

/-- Direct-send mode of `main`: `createMapping` runs first and begins with
`getEsVersion`, whose failure (or a failed mapping PUT, `putResult`)
aborts via `log.Fatalf("error creating/updating mapping: %s", err)`
before any input is read; only then is the stream scanned and the buffer
POSTed to `_bulk`. -/
def runDirectSend (cfg : Config) (versionResult : Except String SemVer)
    (putResult : Except String Unit) (lines : List String) : List RunEvent :=
  match versionResult with
  | Except.error e => [RunEvent.fatal ("error creating/updating mapping: " ++ e)]
  | Except.ok v =>
    match putResult with
    | Except.error e => [RunEvent.fatal ("error creating/updating mapping: " ++ e)]
    | Except.ok _ => [RunEvent.bulkSend (runUnits cfg v initState lines)]

/-- A concrete run configuration used to evaluate the pipeline: default
`-index`, no tags, no host or VCS facts available. -/
def cfg0 : Config := ⟨"gobench", "go1.17.13", ⟨none, none⟩, fun _ => none, [], 0⟩

/-- A concrete parsed benchmark: `BenchmarkFoo-8` with 100 iterations and
a measured ns/op of 50. -/
def bench0 : Benchmark := ⟨"BenchmarkFoo-8", 100, 50, 0, 0, 0, 1⟩

theorem getKV_upsert_self {α : Type} (d : List (String × α)) (k : String) (v : α) :
    getKV k (upsert d k v) = some v := by
  induction d with
  | nil => simp [upsert, getKV]
  | cons hd tl ih =>
    obtain ⟨k', v'⟩ := hd
    by_cases h : k' = k
    · simp [upsert, h, getKV]
    · simp [upsert, h, getKV, ih]

theorem getKV_upsert_ne {α : Type} {k k' : String} (h : k ≠ k')
    (d : List (String × α)) (v : α) :
    getKV k (upsert d k' v) = getKV k d := by
  have hne : ¬ k' = k := fun hh => h hh.symm
  induction d with
  | nil => simp [upsert, getKV, hne]
  | cons hd tl ih =>
    obtain ⟨k₀, v₀⟩ := hd
    by_cases h0 : k₀ = k'
    · subst h0
      simp [upsert, getKV, hne]
    · simp only [upsert, h0, if_neg h0]
      by_cases hk : k₀ = k
      · simp [getKV, hk]
      · simp [getKV, hk, ih]

theorem isSome_getKV_upsert {α : Type} {k : String} {d : List (String × α)}
    (k' : String) (v : α) (h : (getKV k d).isSome = true) :
    (getKV k (upsert d k' v)).isSome = true := by
  by_cases hk : k = k'
  · subst hk; simp [getKV_upsert_self]
  · rw [getKV_upsert_ne hk]; exact h

theorem getKV_addMeasurements_ne {k : String} (h1 : k ≠ fieldNSPerOp)
    (h2 : k ≠ fieldMBPerS) (h3 : k ≠ fieldAllocedBytesPerOp)
    (h4 : k ≠ fieldAllocsPerOp) (b : Benchmark) (d : List (String × JVal)) :
    getKV k (addMeasurements b d) = getKV k d := by
  simp only [addMeasurements]
  split_ifs <;>
    simp [getKV_upsert_ne h1, getKV_upsert_ne h2, getKV_upsert_ne h3, getKV_upsert_ne h4]

theorem getKV_addExtra_ne {k : String} (h : k ≠ fieldExtraMetrics)
    (extra : Option (List (String × ℚ))) (d : List (String × JVal)) :
    getKV k (addExtra extra d) = getKV k d := by
  cases extra with
  | none => rfl
  | some m =>
    by_cases hm : m.length > 0 <;> simp [addExtra, hm, getKV_upsert_ne h]

theorem getKV_addHostFacts_ne {k : String} (h1 : k ≠ fieldHostname)
    (h2 : k ≠ fieldOSVersion) (host : HostFacts) (d : List (String × JVal)) :
    getKV k (addHostFacts host d) = getKV k d := by
  obtain ⟨hn, ov⟩ := host
  cases hn <;> cases ov <;>
    simp [addHostFacts, getKV_upsert_ne h1, getKV_upsert_ne h2]

theorem getKV_addVCSFacts_ne {k : String} (h : k ≠ fieldGit)
    (git : Option GitFacts) (d : List (String × JVal)) :
    getKV k (addVCSFacts git d) = getKV k d := by
  cases git <;> simp [addVCSFacts, getKV_upsert_ne h]

theorem getKV_addTags_ne {k : String} (tags : List (String × String))
    (d : List (String × JVal)) (h : ∀ p ∈ tags, p.1 ≠ k) :
    getKV k (addTags tags d) = getKV k d := by
  induction tags generalizing d with
  | nil => rfl
  | cons p ps ih =>
    have hp : p.1 ≠ k := h p (List.mem_cons_self p ps)
    have hrec := ih (upsert d p.1 (JVal.str p.2))
      (fun q hq => h q (List.mem_cons_of_mem p hq))
    calc getKV k (addTags (p :: ps) d)
        = getKV k (addTags ps (upsert d p.1 (JVal.str p.2))) := rfl
      _ = getKV k (upsert d p.1 (JVal.str p.2)) := hrec
      _ = getKV k d := getKV_upsert_ne (fun hh => hp hh.symm) d (JVal.str p.2)

theorem isSome_addMeasurements {k : String} (b : Benchmark)
    (d : List (String × JVal)) (h : (getKV k d).isSome = true) :
    (getKV k (addMeasurements b d)).isSome = true := by
  simp only [addMeasurements]
  split_ifs <;> (repeat apply isSome_getKV_upsert) <;> exact h

theorem isSome_addExtra {k : String} (extra : Option (List (String × ℚ)))
    (d : List (String × JVal)) (h : (getKV k d).isSome = true) :
    (getKV k (addExtra extra d)).isSome = true := by
  cases extra with
  | none => exact h
  | some m =>
    by_cases hm : m.length > 0 <;>
      simp only [addExtra, hm, if_true, if_false, reduceIte] <;>
      (repeat apply isSome_getKV_upsert) <;> exact h

theorem isSome_addHostFacts {k : String} (host : HostFacts)
    (d : List (String × JVal)) (h : (getKV k d).isSome = true) :
    (getKV k (addHostFacts host d)).isSome = true := by
  obtain ⟨hn, ov⟩ := host
  cases hn <;> cases ov <;> simp only [addHostFacts] <;>
    (repeat apply isSome_getKV_upsert) <;> exact h

theorem isSome_addVCSFacts {k : String} (git : Option GitFacts)
    (d : List (String × JVal)) (h : (getKV k d).isSome = true) :
    (getKV k (addVCSFacts git d)).isSome = true := by
  cases git <;> simp only [addVCSFacts] <;>
    (repeat apply isSome_getKV_upsert) <;> exact h

theorem isSome_addTags {k : String} (tags : List (String × String))
    (d : List (String × JVal)) (h : (getKV k d).isSome = true) :
    (getKV k (addTags tags d)).isSome = true := by
  induction tags generalizing d with
  | nil => exact h
  | cons p ps ih =>
    exact ih (upsert d p.1 (JVal.str p.2)) (isSome_getKV_upsert p.1 (JVal.str p.2) h)

theorem isSome_buildDoc {k : String} (cfg : Config) (b : Benchmark)
    (extra : Option (List (String × ℚ))) (pkg goos goarch : String)
    (h : (getKV k (baseDoc b pkg cfg.goVersion goos goarch cfg.ts)).isSome = true) :
    (getKV k (buildDoc cfg b extra pkg goos goarch)).isSome = true := by
  unfold buildDoc
  exact isSome_addTags _ _ (isSome_addVCSFacts _ _ (isSome_addHostFacts _ _
    (isSome_addExtra _ _ (isSome_addMeasurements _ _ h))))

theorem getKV_addMeasurements_ns (b : Benchmark) (d : List (String × JVal)) :
    getKV fieldNSPerOp (addMeasurements b d) =
      if b.measured &&& 1 ≠ 0 then some (JVal.rat b.nsPerOp)
      else getKV fieldNSPerOp d := by
  have e2 : fieldNSPerOp ≠ fieldMBPerS := by decide
  have e3 : fieldNSPerOp ≠ fieldAllocedBytesPerOp := by decide
  have e4 : fieldNSPerOp ≠ fieldAllocsPerOp := by decide
  simp only [addMeasurements]
  split_ifs <;>
    simp [getKV_upsert_self, getKV_upsert_ne e2, getKV_upsert_ne e3, getKV_upsert_ne e4]

theorem getKV_addMeasurements_mb (b : Benchmark) (d : List (String × JVal)) :
    getKV fieldMBPerS (addMeasurements b d) =
      if b.measured &&& 2 ≠ 0 then some (JVal.rat b.mbPerS)
      else getKV fieldMBPerS d := by
  have e1 : fieldMBPerS ≠ fieldNSPerOp := by decide
  have e3 : fieldMBPerS ≠ fieldAllocedBytesPerOp := by decide
  have e4 : fieldMBPerS ≠ fieldAllocsPerOp := by decide
  simp only [addMeasurements]
  split_ifs <;>
    simp [getKV_upsert_self, getKV_upsert_ne e1, getKV_upsert_ne e3, getKV_upsert_ne e4]

theorem getKV_addMeasurements_alloced (b : Benchmark) (d : List (String × JVal)) :
    getKV fieldAllocedBytesPerOp (addMeasurements b d) =
      if b.measured &&& 4 ≠ 0 then some (JVal.int b.allocedBytesPerOp)
      else getKV fieldAllocedBytesPerOp d := by
  have e1 : fieldAllocedBytesPerOp ≠ fieldNSPerOp := by decide
  have e2 : fieldAllocedBytesPerOp ≠ fieldMBPerS := by decide
  have e4 : fieldAllocedBytesPerOp ≠ fieldAllocsPerOp := by decide
  simp only [addMeasurements]
  split_ifs <;>
    simp [getKV_upsert_self, getKV_upsert_ne e1, getKV_upsert_ne e2, getKV_upsert_ne e4]

theorem getKV_addMeasurements_allocs (b : Benchmark) (d : List (String × JVal)) :
    getKV fieldAllocsPerOp (addMeasurements b d) =
      if b.measured &&& 8 ≠ 0 then some (JVal.int b.allocsPerOp)
      else getKV fieldAllocsPerOp d := by
  have e1 : fieldAllocsPerOp ≠ fieldNSPerOp := by decide
  have e2 : fieldAllocsPerOp ≠ fieldMBPerS := by decide
  have e3 : fieldAllocsPerOp ≠ fieldAllocedBytesPerOp := by decide
  simp only [addMeasurements]
  split_ifs <;>
    simp [getKV_upsert_self, getKV_upsert_ne e1, getKV_upsert_ne e2, getKV_upsert_ne e3]

/-- Lookup of one of the four standard measurement keys in the assembled
document, provided the user tags do not rebind it. -/
theorem getKV_buildDoc_measurement (cfg : Config) (b : Benchmark)
    (extra : Option (List (String × ℚ))) (pkg goos goarch : String)
    (k : String) (hk : k = fieldNSPerOp ∨ k = fieldMBPerS ∨
      k = fieldAllocedBytesPerOp ∨ k = fieldAllocsPerOp)
    (ht : ∀ p ∈ cfg.tags, p.1 ≠ k) :
    getKV k (buildDoc cfg b extra pkg goos goarch) =
      getKV k (addMeasurements b (baseDoc b pkg cfg.goVersion goos goarch cfg.ts)) := by
  have hx : k ≠ fieldExtraMetrics := by rcases hk with h | h | h | h <;> subst h <;> decide
  have hh1 : k ≠ fieldHostname := by rcases hk with h | h | h | h <;> subst h <;> decide
  have hh2 : k ≠ fieldOSVersion := by rcases hk with h | h | h | h <;> subst h <;> decide
  have hg : k ≠ fieldGit := by rcases hk with h | h | h | h <;> subst h <;> decide
  unfold buildDoc
  rw [getKV_addTags_ne _ _ ht, getKV_addVCSFacts_ne hg, getKV_addHostFacts_ne hh1 hh2,
    getKV_addExtra_ne hx]

/-- C3: for every parsed benchmark record, each of the four standard
measurement fields (ns_per_op, mb_per_s, alloced_bytes_per_op,
allocs_per_op) appears in the assembled document if and only if the
corresponding measured-flag bit is set on the record; a field whose flag
is unset is never emitted, not even with a zero value.  (Stated for tag
sets that do not rebind the four keys; the tag merge is last-write-wins
by design.) -/
theorem c3_measured_fields_iff_flags (cfg : Config) (b : Benchmark)
    (extra : Option (List (String × ℚ))) (pkg goos goarch : String)
    (ht : ∀ p ∈ cfg.tags, p.1 ≠ fieldNSPerOp ∧ p.1 ≠ fieldMBPerS ∧
      p.1 ≠ fieldAllocedBytesPerOp ∧ p.1 ≠ fieldAllocsPerOp) :
    (getKV fieldNSPerOp (buildDoc cfg b extra pkg goos goarch) =
      if b.measured &&& 1 ≠ 0 then some (JVal.rat b.nsPerOp) else none) ∧
    (getKV fieldMBPerS (buildDoc cfg b extra pkg goos goarch) =
      if b.measured &&& 2 ≠ 0 then some (JVal.rat b.mbPerS) else none) ∧
    (getKV fieldAllocedBytesPerOp (buildDoc cfg b extra pkg goos goarch) =
      if b.measured &&& 4 ≠ 0 then some (JVal.int b.allocedBytesPerOp) else none) ∧
    (getKV fieldAllocsPerOp (buildDoc cfg b extra pkg goos goarch) =
      if b.measured &&& 8 ≠ 0 then some (JVal.int b.allocsPerOp) else none) := by
  refine ⟨?_, ?_, ?_, ?_⟩
  · rw [getKV_buildDoc_measurement cfg b extra pkg goos goarch _ (Or.inl rfl)
      (fun p hp => (ht p hp).1), getKV_addMeasurements_ns,
      show getKV fieldNSPerOp (baseDoc b pkg cfg.goVersion goos goarch cfg.ts) = none from rfl]
  · rw [getKV_buildDoc_measurement cfg b extra pkg goos goarch _ (Or.inr (Or.inl rfl))
      (fun p hp => (ht p hp).2.1), getKV_addMeasurements_mb,
      show getKV fieldMBPerS (baseDoc b pkg cfg.goVersion goos goarch cfg.ts) = none from rfl]
  · rw [getKV_buildDoc_measurement cfg b extra pkg goos goarch _ (Or.inr (Or.inr (Or.inl rfl)))
      (fun p hp => (ht p hp).2.2.1), getKV_addMeasurements_alloced,
      show getKV fieldAllocedBytesPerOp (baseDoc b pkg cfg.goVersion goos goarch cfg.ts) = none from rfl]
  · rw [getKV_buildDoc_measurement cfg b extra pkg goos goarch _ (Or.inr (Or.inr (Or.inr rfl)))
      (fun p hp => (ht p hp).2.2.2), getKV_addMeasurements_allocs,
      show getKV fieldAllocsPerOp (baseDoc b pkg cfg.goVersion goos goarch cfg.ts) = none from rfl]

/-- Witness for C3 at a concrete record with only the ns/op flag set:
ns_per_op is present with the measured value and the other three standard
fields are absent. -/
theorem c3_witness :
    (∀ p ∈ cfg0.tags, p.1 ≠ fieldNSPerOp ∧ p.1 ≠ fieldMBPerS ∧
      p.1 ≠ fieldAllocedBytesPerOp ∧ p.1 ≠ fieldAllocsPerOp) ∧
    getKV fieldNSPerOp (buildDoc cfg0 bench0 none "" "" "") = some (JVal.rat 50) ∧
    getKV fieldMBPerS (buildDoc cfg0 bench0 none "" "" "") = none ∧
    getKV fieldAllocedBytesPerOp (buildDoc cfg0 bench0 none "" "" "") = none ∧
    getKV fieldAllocsPerOp (buildDoc cfg0 bench0 none "" "" "") = none := by
  have ht : ∀ p ∈ cfg0.tags, p.1 ≠ fieldNSPerOp ∧ p.1 ≠ fieldMBPerS ∧
      p.1 ≠ fieldAllocedBytesPerOp ∧ p.1 ≠ fieldAllocsPerOp := by
    intro p hp
    simp [cfg0] at hp
  obtain ⟨h1, h2, h3, h4⟩ := c3_measured_fields_iff_flags cfg0 bench0 none "" "" "" ht
  refine ⟨ht, ?_, ?_, ?_, ?_⟩
  · rw [h1]; rfl
  · rw [h2]; rfl
  · rw [h3]; rfl
  · rw [h4]; rfl

theorem getKV_buildDoc_pkg (cfg : Config) (b : Benchmark)
    (extra : Option (List (String × ℚ))) (pkg goos goarch : String)
    (ht : ∀ p ∈ cfg.tags, p.1 ≠ fieldPkg) :
    getKV fieldPkg (buildDoc cfg b extra pkg goos goarch) = some (JVal.str pkg) := by
  unfold buildDoc
  rw [getKV_addTags_ne _ _ ht, getKV_addVCSFacts_ne (by decide),
    getKV_addHostFacts_ne (by decide) (by decide), getKV_addExtra_ne (by decide),
    getKV_addMeasurements_ne (by decide) (by decide) (by decide) (by decide)]
  rfl

theorem getKV_buildDoc_goos (cfg : Config) (b : Benchmark)
    (extra : Option (List (String × ℚ))) (pkg goos goarch : String)
    (ht : ∀ p ∈ cfg.tags, p.1 ≠ fieldGOOS) :
    getKV fieldGOOS (buildDoc cfg b extra pkg goos goarch) = some (JVal.str goos) := by
  unfold buildDoc
  rw [getKV_addTags_ne _ _ ht, getKV_addVCSFacts_ne (by decide),
    getKV_addHostFacts_ne (by decide) (by decide), getKV_addExtra_ne (by decide),
    getKV_addMeasurements_ne (by decide) (by decide) (by decide) (by decide)]
  rfl

theorem getKV_buildDoc_goarch (cfg : Config) (b : Benchmark)
    (extra : Option (List (String × ℚ))) (pkg goos goarch : String)
    (ht : ∀ p ∈ cfg.tags, p.1 ≠ fieldGOARCH) :
    getKV fieldGOARCH (buildDoc cfg b extra pkg goos goarch) = some (JVal.str goarch) := by
  unfold buildDoc
  rw [getKV_addTags_ne _ _ ht, getKV_addVCSFacts_ne (by decide),
    getKV_addHostFacts_ne (by decide) (by decide), getKV_addExtra_ne (by decide),
    getKV_addMeasurements_ne (by decide) (by decide) (by decide) (by decide)]
  rfl

theorem listHasPfx_parts {p1 p2 p3 : Char} {ps cs : List Char}
    (h : listHasPfx (p1 :: p2 :: p3 :: ps) cs = true) :
    ∃ c1 c2 c3 cs', cs = c1 :: c2 :: c3 :: cs' ∧ p1 = c1 ∧ p2 = c2 ∧ p3 = c3 := by
  cases cs with
  | nil => simp [listHasPfx] at h
  | cons c1 cs1 =>
    cases cs1 with
    | nil => simp [listHasPfx] at h
    | cons c2 cs2 =>
      cases cs2 with
      | nil => simp [listHasPfx] at h
      | cons c3 cs3 =>
        simp only [listHasPfx, Bool.and_eq_true, decide_eq_true_eq] at h
        exact ⟨c1, c2, c3, cs3, rfl, h.1, h.2.1, h.2.2.1⟩

theorem pfx_pkg_goos (l : String) (h : goHasPfx l "pkg:" = true) :
    goHasPfx l "goos:" = false := by
  cases hg : goHasPfx l "goos:" with
  | false => rfl
  | true =>
    exfalso
    unfold goHasPfx at h hg
    rw [show ("pkg:".toList) = ['p', 'k', 'g', ':'] from rfl] at h
    rw [show ("goos:".toList) = ['g', 'o', 'o', 's', ':'] from rfl] at hg
    obtain ⟨c1, c2, c3, cs', heq, hp1, _, _⟩ := listHasPfx_parts h
    rw [heq] at hg
    simp only [listHasPfx, Bool.and_eq_true, decide_eq_true_eq] at hg
    rw [← hp1] at hg
    exact absurd hg.1 (by decide)

theorem pfx_pkg_goarch (l : String) (h : goHasPfx l "pkg:" = true) :
    goHasPfx l "goarch:" = false := by
  cases hg : goHasPfx l "goarch:" with
  | false => rfl
  | true =>
    exfalso
    unfold goHasPfx at h hg
    rw [show ("pkg:".toList) = ['p', 'k', 'g', ':'] from rfl] at h
    rw [show ("goarch:".toList) = ['g', 'o', 'a', 'r', 'c', 'h', ':'] from rfl] at hg
    obtain ⟨c1, c2, c3, cs', heq, hp1, _, _⟩ := listHasPfx_parts h
    rw [heq] at hg
    simp only [listHasPfx, Bool.and_eq_true, decide_eq_true_eq] at hg
    rw [← hp1] at hg
    exact absurd hg.1 (by decide)

theorem pfx_goos_goarch (l : String) (h : goHasPfx l "goos:" = true) :
    goHasPfx l "goarch:" = false := by
  cases hg : goHasPfx l "goarch:" with
  | false => rfl
  | true =>
    exfalso
    unfold goHasPfx at h hg
    rw [show ("goos:".toList) = ['g', 'o', 'o', 's', ':'] from rfl] at h
    rw [show ("goarch:".toList) = ['g', 'o', 'a', 'r', 'c', 'h', ':'] from rfl] at hg
    obtain ⟨c1, c2, c3, cs', heq, _, _, hp3⟩ := listHasPfx_parts h
    rw [heq] at hg
    simp only [listHasPfx, Bool.and_eq_true, decide_eq_true_eq] at hg
    rw [← hp3] at hg
    exact absurd hg.2.2.1 (by decide)

theorem scanStep_pkg (st : ScanState) (l : String) :
    (scanStep st l).pkg =
      if goHasPfx l "pkg:" then goTrimSpace (goDrop l 4) else st.pkg := by
  unfold scanStep
  split_ifs <;> rfl

theorem scanStep_goos (st : ScanState) (l : String) :
    (scanStep st l).goos =
      if goHasPfx l "goos:" then goTrimSpace (goDrop l 5) else st.goos := by
  unfold scanStep
  by_cases h1 : goHasPfx l "pkg:" = true
  · rw [pfx_pkg_goos l h1]
    simp [h1]
  · simp only [Bool.not_eq_true] at h1
    simp only [h1]
    split_ifs <;> simp_all

theorem scanStep_goarch (st : ScanState) (l : String) :
    (scanStep st l).goarch =
      if goHasPfx l "goarch:" then goTrimSpace (goDrop l 7) else st.goarch := by
  unfold scanStep
  by_cases h1 : goHasPfx l "pkg:" = true
  · rw [pfx_pkg_goarch l h1]
    simp [h1]
  · simp only [Bool.not_eq_true] at h1
    simp only [h1]
    by_cases h2 : goHasPfx l "goos:" = true
    · rw [pfx_goos_goarch l h2]
      simp [h2]
    · simp only [Bool.not_eq_true] at h2
      simp only [h2]
      split_ifs <;> simp_all

theorem processLine_fst (cfg : Config) (v : SemVer) (st : ScanState) (l : String) :
    (processLine cfg v st l).1 = scanStep st l := by
  unfold processLine scanStep
  split_ifs <;> try rfl
  cases ParseLine l <;> rfl

theorem processLine_ctx (cfg : Config) (v : SemVer) (st : ScanState) (l : String)
    (h : goHasPfx l "pkg:" = true ∨ goHasPfx l "goos:" = true ∨
      goHasPfx l "goarch:" = true) :
    (processLine cfg v st l).2 = [] := by
  unfold processLine
  split_ifs with h1 h2 h3 <;> try rfl
  rcases h with h | h | h <;> simp_all

theorem processLine_bench (cfg : Config) (v : SemVer) (st : ScanState) (l : String)
    (b : Benchmark) (h1 : goHasPfx l "pkg:" = false) (h2 : goHasPfx l "goos:" = false)
    (h3 : goHasPfx l "goarch:" = false) (hp : ParseLine l = some b) :
    processLine cfg v st l =
      (st, encodeIndexOpUnits cfg v b (parseExtraMetrics l) st.pkg st.goos st.goarch) := by
  unfold processLine
  simp [h1, h2, h3, hp]

theorem runUnits_append (cfg : Config) (v : SemVer) (xs ys : List String) :
    ∀ st : ScanState, runUnits cfg v st (xs ++ ys) =
      runUnits cfg v st xs ++ runUnits cfg v (scanAll st xs) ys := by
  induction xs with
  | nil => intro st; rfl
  | cons l ls ih =>
    intro st
    calc runUnits cfg v st ((l :: ls) ++ ys)
        = (processLine cfg v st l).2 ++
            runUnits cfg v (scanStep st l) (ls ++ ys) := rfl
      _ = (processLine cfg v st l).2 ++
            (runUnits cfg v (scanStep st l) ls ++
              runUnits cfg v (scanAll (scanStep st l) ls) ys) := by
          rw [ih]
      _ = runUnits cfg v st (l :: ls) ++ runUnits cfg v (scanAll st (l :: ls)) ys := by
          rw [← List.append_assoc]
          rfl

theorem scanAll_no_ctx (lines : List String)
    (h : ∀ l ∈ lines, goHasPfx l "pkg:" = false ∧ goHasPfx l "goos:" = false ∧
      goHasPfx l "goarch:" = false) :
    ∀ st : ScanState, scanAll st lines = st := by
  induction lines with
  | nil => intro st; rfl
  | cons l ls ih =>
    intro st
    obtain ⟨h1, h2, h3⟩ := h l (List.mem_cons_self l ls)
    have hstep : scanStep st l = st := by
      unfold scanStep
      simp [h1, h2, h3]
    calc scanAll st (l :: ls) = scanAll (scanStep st l) ls := rfl
      _ = scanAll st ls := by rw [hstep]
      _ = st := ih (fun x hx => h x (List.mem_cons_of_mem l hx)) st

theorem scanAll_pkg (lines : List String) : ∀ st : ScanState,
    (scanAll st lines).pkg =
      ((lines.reverse.find? (fun l => goHasPfx l "pkg:")).map
        (fun l => goTrimSpace (goDrop l 4))).getD st.pkg := by
  induction lines with
  | nil => intro st; rfl
  | cons l ls ih =>
    intro st
    have h1 : scanAll st (l :: ls) = scanAll (scanStep st l) ls := rfl
    rw [h1, ih, List.reverse_cons, List.find?_append]
    cases hf : ls.reverse.find? (fun l => goHasPfx l "pkg:") with
    | some x => simp
    | none =>
      cases hp : goHasPfx l "pkg:" with
      | true => simp [List.find?, hp, scanStep_pkg]
      | false => simp [List.find?, hp, scanStep_pkg]

theorem scanAll_goos (lines : List String) : ∀ st : ScanState,
    (scanAll st lines).goos =
      ((lines.reverse.find? (fun l => goHasPfx l "goos:")).map
        (fun l => goTrimSpace (goDrop l 5))).getD st.goos := by
  induction lines with
  | nil => intro st; rfl
  | cons l ls ih =>
    intro st
    have h1 : scanAll st (l :: ls) = scanAll (scanStep st l) ls := rfl
    rw [h1, ih, List.reverse_cons, List.find?_append]
    cases hf : ls.reverse.find? (fun l => goHasPfx l "goos:") with
    | some x => simp
    | none =>
      cases hp : goHasPfx l "goos:" with
      | true => simp [List.find?, hp, scanStep_goos]
      | false => simp [List.find?, hp, scanStep_goos]

theorem scanAll_goarch (lines : List String) : ∀ st : ScanState,
    (scanAll st lines).goarch =
      ((lines.reverse.find? (fun l => goHasPfx l "goarch:")).map
        (fun l => goTrimSpace (goDrop l 7))).getD st.goarch := by
  induction lines with
  | nil => intro st; rfl
  | cons l ls ih =>
    intro st
    have h1 : scanAll st (l :: ls) = scanAll (scanStep st l) ls := rfl
    rw [h1, ih, List.reverse_cons, List.find?_append]
    cases hf : ls.reverse.find? (fun l => goHasPfx l "goarch:") with
    | some x => simp
    | none =>
      cases hp : goHasPfx l "goarch:" with
      | true => simp [List.find?, hp, scanStep_goarch]
      | false => simp [List.find?, hp, scanStep_goarch]

/-- C4: the document emitted for a benchmark line carries pkg, goos and
goarch equal to the whitespace-trimmed payload of the most recent
preceding `pkg:`, `goos:`, `goarch:` context line respectively (a later
context line overrides earlier ones, and the `lines` prefix is
arbitrary); and a context line itself produces no document.  (Stated for
tag sets that do not rebind the three context keys.) -/
theorem c4_context_threading :
    (∀ (cfg : Config) (v : SemVer) (lines : List String) (benchLine : String) (b : Benchmark),
      goHasPfx benchLine "pkg:" = false → goHasPfx benchLine "goos:" = false →
      goHasPfx benchLine "goarch:" = false → ParseLine benchLine = some b →
      (∀ p ∈ cfg.tags, p.1 ≠ fieldPkg ∧ p.1 ≠ fieldGOOS ∧ p.1 ≠ fieldGOARCH) →
      ∃ a d, runUnits cfg v initState (lines ++ [benchLine]) =
          runUnits cfg v initState lines ++
            [EncUnit.action a, EncUnit.doc d, EncUnit.str "\n"] ∧
        getKV fieldPkg d = some (JVal.str (lastCtx "pkg:" 4 lines)) ∧
        getKV fieldGOOS d = some (JVal.str (lastCtx "goos:" 5 lines)) ∧
        getKV fieldGOARCH d = some (JVal.str (lastCtx "goarch:" 7 lines))) ∧
    (∀ (cfg : Config) (v : SemVer) (st : ScanState) (l : String),
      goHasPfx l "pkg:" = true ∨ goHasPfx l "goos:" = true ∨
        goHasPfx l "goarch:" = true →
      (processLine cfg v st l).2 = []) := by
  constructor
  · intro cfg v lines benchLine b h1 h2 h3 hp ht
    refine ⟨encodeIndexAction cfg.index v,
      buildDoc cfg b (parseExtraMetrics benchLine)
        (scanAll initState lines).pkg (scanAll initState lines).goos
        (scanAll initState lines).goarch, ?_, ?_, ?_, ?_⟩
    · rw [runUnits_append]
      congr 1
      rw [show runUnits cfg v (scanAll initState lines) [benchLine] =
          (processLine cfg v (scanAll initState lines) benchLine).2 ++ [] from rfl,
        processLine_bench cfg v _ benchLine b h1 h2 h3 hp]
      simp [encodeIndexOpUnits]
    · rw [getKV_buildDoc_pkg _ _ _ _ _ _ (fun p hp' => (ht p hp').1),
        scanAll_pkg lines initState]
      rfl
    · rw [getKV_buildDoc_goos _ _ _ _ _ _ (fun p hp' => (ht p hp').2.1),
        scanAll_goos lines initState]
      rfl
    · rw [getKV_buildDoc_goarch _ _ _ _ _ _ (fun p hp' => (ht p hp').2.2),
        scanAll_goarch lines initState]
      rfl
  · exact fun cfg v st l h => processLine_ctx cfg v st l h

/-- Witness for C4: after `pkg: a/b`, `goos: linux`, `pkg: github.com/x/y`,
the benchmark line's document carries pkg `github.com/x/y` (the later
context line overrode the earlier), goos `linux`, and goarch empty. -/
theorem c4_witness :
    (goHasPfx "BenchmarkFoo-8\t100\t50 ns/op" "pkg:" = false) ∧
    (ParseLine "BenchmarkFoo-8\t100\t50 ns/op" = some bench0) ∧
    (∃ a d, runUnits cfg0 ⟨7, 11, 1, []⟩ initState
        (["pkg: a/b", "goos: linux", "pkg: github.com/x/y"] ++
          ["BenchmarkFoo-8\t100\t50 ns/op"]) =
        runUnits cfg0 ⟨7, 11, 1, []⟩ initState
          ["pkg: a/b", "goos: linux", "pkg: github.com/x/y"] ++
          [EncUnit.action a, EncUnit.doc d, EncUnit.str "\n"] ∧
      getKV fieldPkg d = some (JVal.str "github.com/x/y") ∧
      getKV fieldGOOS d = some (JVal.str "linux") ∧
      getKV fieldGOARCH d = some (JVal.str "")) ∧
    (processLine cfg0 ⟨7, 11, 1, []⟩ initState "pkg: a/b").2 = [] := by
  refine ⟨by decide, by decide, ?_, ?_⟩
  · obtain ⟨a, d, hu, hpkg, hgoos, hgoarch⟩ :=
      c4_context_threading.1 cfg0 ⟨7, 11, 1, []⟩
        ["pkg: a/b", "goos: linux", "pkg: github.com/x/y"]
        "BenchmarkFoo-8\t100\t50 ns/op" bench0
        (by decide) (by decide) (by decide) (by decide)
        (by intro p hp; simp [cfg0] at hp)
    refine ⟨a, d, hu, ?_, ?_, ?_⟩
    · rw [hpkg]; rfl
    · rw [hgoos]; rfl
    · rw [hgoarch]; rfl
  · exact c4_context_threading.2 cfg0 ⟨7, 11, 1, []⟩ initState "pkg: a/b"
      (Or.inl (by decide))

/-- C10: every assembled document contains the seven base fields
executed_at, name, iterations, pkg, go_version, goos and goarch; and a
benchmark line parsed before any context line yields a document whose
pkg, goos, goarch are the empty string rather than omitted (for tag sets
that do not rebind the three context keys). -/
theorem c10_base_fields :
    (∀ (cfg : Config) (b : Benchmark) (extra : Option (List (String × ℚ)))
      (pkg goos goarch : String),
      (getKV fieldExecutedAt (buildDoc cfg b extra pkg goos goarch)).isSome = true ∧
      (getKV fieldName (buildDoc cfg b extra pkg goos goarch)).isSome = true ∧
      (getKV fieldIterations (buildDoc cfg b extra pkg goos goarch)).isSome = true ∧
      (getKV fieldPkg (buildDoc cfg b extra pkg goos goarch)).isSome = true ∧
      (getKV fieldGoVersion (buildDoc cfg b extra pkg goos goarch)).isSome = true ∧
      (getKV fieldGOOS (buildDoc cfg b extra pkg goos goarch)).isSome = true ∧
      (getKV fieldGOARCH (buildDoc cfg b extra pkg goos goarch)).isSome = true) ∧
    (∀ (cfg : Config) (v : SemVer) (pre : List String) (benchLine : String) (b : Benchmark),
      (∀ l ∈ pre, goHasPfx l "pkg:" = false ∧ goHasPfx l "goos:" = false ∧
        goHasPfx l "goarch:" = false) →
      goHasPfx benchLine "pkg:" = false → goHasPfx benchLine "goos:" = false →
      goHasPfx benchLine "goarch:" = false → ParseLine benchLine = some b →
      (∀ p ∈ cfg.tags, p.1 ≠ fieldPkg ∧ p.1 ≠ fieldGOOS ∧ p.1 ≠ fieldGOARCH) →
      ∃ a d, runUnits cfg v initState (pre ++ [benchLine]) =
          runUnits cfg v initState pre ++
            [EncUnit.action a, EncUnit.doc d, EncUnit.str "\n"] ∧
        getKV fieldPkg d = some (JVal.str "") ∧
        getKV fieldGOOS d = some (JVal.str "") ∧
        getKV fieldGOARCH d = some (JVal.str "")) := by
  constructor
  · intro cfg b extra pkg goos goarch
    exact ⟨isSome_buildDoc cfg b extra pkg goos goarch rfl,
      isSome_buildDoc cfg b extra pkg goos goarch rfl,
      isSome_buildDoc cfg b extra pkg goos goarch rfl,
      isSome_buildDoc cfg b extra pkg goos goarch rfl,
      isSome_buildDoc cfg b extra pkg goos goarch rfl,
      isSome_buildDoc cfg b extra pkg goos goarch rfl,
      isSome_buildDoc cfg b extra pkg goos goarch rfl⟩
  · intro cfg v pre benchLine b hpre h1 h2 h3 hp ht
    have hstate : scanAll initState pre = initState := scanAll_no_ctx pre hpre initState
    refine ⟨encodeIndexAction cfg.index v,
      buildDoc cfg b (parseExtraMetrics benchLine) "" "" "", ?_, ?_, ?_, ?_⟩
    · rw [runUnits_append, hstate]
      congr 1
      rw [show runUnits cfg v initState [benchLine] =
          (processLine cfg v initState benchLine).2 ++ [] from rfl,
        processLine_bench cfg v _ benchLine b h1 h2 h3 hp]
      simp [encodeIndexOpUnits, initState]
    · exact getKV_buildDoc_pkg _ _ _ _ _ _ (fun p hp' => (ht p hp').1)
    · exact getKV_buildDoc_goos _ _ _ _ _ _ (fun p hp' => (ht p hp').2.1)
    · exact getKV_buildDoc_goarch _ _ _ _ _ _ (fun p hp' => (ht p hp').2.2)

/-- Witness for C10: the seven base fields are present in a concrete
document, and a benchmark line with no preceding context lines yields
empty-string pkg/goos/goarch. -/
theorem c10_witness :
    ((getKV fieldExecutedAt (buildDoc cfg0 bench0 none "" "" "")).isSome = true ∧
      (getKV fieldName (buildDoc cfg0 bench0 none "" "" "")).isSome = true ∧
      (getKV fieldIterations (buildDoc cfg0 bench0 none "" "" "")).isSome = true ∧
      (getKV fieldPkg (buildDoc cfg0 bench0 none "" "" "")).isSome = true ∧
      (getKV fieldGoVersion (buildDoc cfg0 bench0 none "" "" "")).isSome = true ∧
      (getKV fieldGOOS (buildDoc cfg0 bench0 none "" "" "")).isSome = true ∧
      (getKV fieldGOARCH (buildDoc cfg0 bench0 none "" "" "")).isSome = true) ∧
    (ParseLine "BenchmarkFoo-8\t100\t50 ns/op" = some bench0) ∧
    (∃ a d, runUnits cfg0 ⟨7, 11, 1, []⟩ initState
        ([] ++ ["BenchmarkFoo-8\t100\t50 ns/op"]) =
        runUnits cfg0 ⟨7, 11, 1, []⟩ initState [] ++
          [EncUnit.action a, EncUnit.doc d, EncUnit.str "\n"] ∧
      getKV fieldPkg d = some (JVal.str "") ∧
      getKV fieldGOOS d = some (JVal.str "") ∧
      getKV fieldGOARCH d = some (JVal.str "")) := by
  refine ⟨c10_base_fields.1 cfg0 bench0 none "" "" "", by decide, ?_⟩
  exact c10_base_fields.2 cfg0 ⟨7, 11, 1, []⟩ [] "BenchmarkFoo-8\t100\t50 ns/op" bench0
    (by intro l hl; simp at hl) (by decide) (by decide) (by decide) (by decide)
    (by intro p hp; simp [cfg0] at hp)

/-- C2: below 7.0.0 the index-creation body nests the field properties
under the type key "_doc"; at or above 8.0.0 the per-record index action
omits the `_type` discriminator entirely; in [7.0.0, 8.0.0) the action
includes the "_doc" discriminator. -/
theorem c2_version_thresholds (v : SemVer) (index : String) :
    (SemVer.lt v semver700 = true →
      createMappingBody v = MJ.node "mappings" (MJ.node "_doc" MJ.leafProps)) ∧
    (SemVer.lt v semver800 = false →
      getKV "_type" (encodeIndexAction index v) = none) ∧
    (SemVer.lt v semver700 = false → SemVer.lt v semver800 = true →
      getKV "_type" (encodeIndexAction index v) = some (JVal.str "_doc")) := by
  refine ⟨?_, ?_, ?_⟩
  · intro h
    simp [createMappingBody, h]
  · intro h
    simp [encodeIndexAction, h, getKV]
  · intro h7 h8
    simp [encodeIndexAction, h8, getKV]

/-- Witness for C2 at versions 6.8.23, 8.1.0 and 7.11.1. -/
theorem c2_witness :
    (SemVer.lt ⟨6, 8, 23, []⟩ semver700 = true ∧
      createMappingBody ⟨6, 8, 23, []⟩ =
        MJ.node "mappings" (MJ.node "_doc" MJ.leafProps)) ∧
    (SemVer.lt ⟨8, 1, 0, []⟩ semver800 = false ∧
      getKV "_type" (encodeIndexAction "gobench" ⟨8, 1, 0, []⟩) = none) ∧
    (SemVer.lt ⟨7, 11, 1, []⟩ semver700 = false ∧
      SemVer.lt ⟨7, 11, 1, []⟩ semver800 = true ∧
      getKV "_type" (encodeIndexAction "gobench" ⟨7, 11, 1, []⟩) =
        some (JVal.str "_doc")) :=
  ⟨⟨by decide, (c2_version_thresholds ⟨6, 8, 23, []⟩ "gobench").1 (by decide)⟩,
   ⟨by decide, (c2_version_thresholds ⟨8, 1, 0, []⟩ "gobench").2.1 (by decide)⟩,
   ⟨by decide, by decide,
    (c2_version_thresholds ⟨7, 11, 1, []⟩ "gobench").2.2 (by decide) (by decide)⟩⟩

/-- C5: a line with fewer than 3 tab-separated columns yields `none`, and
the extractor never returns an empty mapping (absence is explicit). -/
theorem c5_absent_not_empty :
    (∀ line : String, (goSplit line '\t').length < 3 → parseExtraMetrics line = none) ∧
    (∀ line : String, parseExtraMetrics line ≠ some []) := by
  constructor
  · intro line h
    simp [parseExtraMetrics, h]
  · intro line hc
    simp only [parseExtraMetrics] at hc
    by_cases h3 : (goSplit line '\t').length < 3
    · rw [if_pos h3] at hc
      exact Option.noConfusion hc
    · rw [if_neg h3] at hc
      by_cases hlen :
        (List.foldl extraStep [] (List.drop 3 (goSplit line '\t'))).length > 0
      · rw [if_pos hlen] at hc
        have hr := Option.some.inj hc
        rw [hr] at hlen
        exact absurd hlen (by simp)
      · rw [if_neg hlen] at hc
        exact Option.noConfusion hc

/-- Witness for C5: a one-column line yields `none`, and a line whose
trailing column is unusable yields `none`, not an empty map. -/
theorem c5_witness :
    ((goSplit "BenchmarkFoo" '\t').length < 3 ∧
      parseExtraMetrics "BenchmarkFoo" = none) ∧
    parseExtraMetrics "BenchmarkFoo-8\t100\t50 ns/op\tjunk" ≠ some [] :=
  ⟨⟨by decide, c5_absent_not_empty.1 "BenchmarkFoo" (by decide)⟩,
   c5_absent_not_empty.2 "BenchmarkFoo-8\t100\t50 ns/op\tjunk"⟩

theorem extraStep_std_id (acc : List (String × ℚ)) (entry p0 p1 : String)
    (rest : List String)
    (hsp : goSplit (goTrimSpace entry) ' ' = p0 :: p1 :: rest)
    (hstd : goTrimSpace p1 = "ns/op" ∨ goTrimSpace p1 = "MB/s" ∨
      goTrimSpace p1 = "B/op" ∨ goTrimSpace p1 = "allocs/op") :
    extraStep acc entry = acc := by
  simp only [extraStep, hsp]
  cases hf : parseFloat? (goTrimSpace p0) with
  | none => rfl
  | some v => exact if_pos hstd

/-- C6: a trailing tab-separated column whose label token is exactly
"ns/op", "MB/s", "B/op" or "allocs/op" never contributes to the
extra-metrics mapping: such a column is a no-op for the fold, and
deleting it from any position among the trailing columns leaves the
result of `parseExtraMetrics` unchanged. -/
theorem c6_standard_labels_excluded :
    (∀ (acc : List (String × ℚ)) (entry p0 p1 : String) (rest : List String),
      goSplit (goTrimSpace entry) ' ' = p0 :: p1 :: rest →
      (goTrimSpace p1 = "ns/op" ∨ goTrimSpace p1 = "MB/s" ∨
        goTrimSpace p1 = "B/op" ∨ goTrimSpace p1 = "allocs/op") →
      extraStep acc entry = acc) ∧
    (∀ (line line' : String) (first3 pre post : List String)
      (entry p0 p1 : String) (rest : List String),
      goSplit line '\t' = first3 ++ (pre ++ entry :: post) →
      goSplit line' '\t' = first3 ++ (pre ++ post) →
      first3.length = 3 →
      goSplit (goTrimSpace entry) ' ' = p0 :: p1 :: rest →
      (goTrimSpace p1 = "ns/op" ∨ goTrimSpace p1 = "MB/s" ∨
        goTrimSpace p1 = "B/op" ∨ goTrimSpace p1 = "allocs/op") →
      parseExtraMetrics line = parseExtraMetrics line') := by
  constructor
  · exact extraStep_std_id
  · intro line line' first3 pre post entry p0 p1 rest h1 h2 h3 hsp hstd
    have hl1 : ¬ (first3 ++ (pre ++ entry :: post)).length < 3 := by
      simp only [List.length_append, List.length_cons, h3]
      omega
    have hl2 : ¬ (first3 ++ (pre ++ post)).length < 3 := by
      simp only [List.length_append, h3]
      omega
    simp only [parseExtraMetrics, h1, h2, if_neg hl1, if_neg hl2]
    rw [← h3, List.drop_left, List.drop_left, List.foldl_append, List.foldl_cons,
      extraStep_std_id _ entry p0 p1 rest hsp hstd, ← List.foldl_append]

/-- Witness for C6: dropping the `12 ns/op` column from the trailing
columns leaves the extracted mapping unchanged. -/
theorem c6_witness :
    (goSplit "BenchmarkFoo-8\t100\t50 ns/op\t12 ns/op\t34 x" '\t' =
      ["BenchmarkFoo-8", "100", "50 ns/op"] ++ ([] ++ "12 ns/op" :: ["34 x"]) ∧
     goSplit (goTrimSpace "12 ns/op") ' ' = "12" :: "ns/op" :: [] ∧
     goTrimSpace "ns/op" = "ns/op") ∧
    extraStep [] "12 ns/op" = [] ∧
    parseExtraMetrics "BenchmarkFoo-8\t100\t50 ns/op\t12 ns/op\t34 x" =
      parseExtraMetrics "BenchmarkFoo-8\t100\t50 ns/op\t34 x" :=
  ⟨⟨by decide, by decide, by decide⟩,
   c6_standard_labels_excluded.1 [] "12 ns/op" "12" "ns/op" []
     (by decide) (Or.inl (by decide)),
   c6_standard_labels_excluded.2
     "BenchmarkFoo-8\t100\t50 ns/op\t12 ns/op\t34 x"
     "BenchmarkFoo-8\t100\t50 ns/op\t34 x"
     ["BenchmarkFoo-8", "100", "50 ns/op"] [] ["34 x"] "12 ns/op" "12" "ns/op" []
     (by decide) (by decide) (by decide) (by decide) (Or.inl (by decide))⟩

/-- C7: a usable trailing column contributes the entry whose key is the
label with every '/' replaced by '_'; in particular the column
`4386 txs/sec` produces key "txs_sec" with value 4386. -/
theorem c7_slash_to_underscore :
    (∀ (acc : List (String × ℚ)) (entry p0 p1 : String) (rest : List String) (v : ℚ),
      goSplit (goTrimSpace entry) ' ' = p0 :: p1 :: rest →
      parseFloat? (goTrimSpace p0) = some v →
      ¬ (goTrimSpace p1 = "ns/op" ∨ goTrimSpace p1 = "MB/s" ∨
         goTrimSpace p1 = "B/op" ∨ goTrimSpace p1 = "allocs/op") →
      extraStep acc entry = upsert acc (escapeKey (goTrimSpace p1)) v) ∧
    parseExtraMetrics "BenchmarkFoo-8\t100\t50 ns/op\t4386 txs/sec" =
      some [("txs_sec", 4386)] := by
  constructor
  · intro acc entry p0 p1 rest v hsp hf hstd
    simp only [extraStep, hsp, hf]
    exact if_neg hstd
  · decide

/-- Witness for C7: the step on column `4386 txs/sec` stores 4386 under
key "txs_sec". -/
theorem c7_witness :
    (goSplit (goTrimSpace "4386 txs/sec") ' ' = "4386" :: "txs/sec" :: [] ∧
      parseFloat? (goTrimSpace "4386") = some 4386 ∧
      ¬ (goTrimSpace "txs/sec" = "ns/op" ∨ goTrimSpace "txs/sec" = "MB/s" ∨
         goTrimSpace "txs/sec" = "B/op" ∨ goTrimSpace "txs/sec" = "allocs/op")) ∧
    extraStep [] "4386 txs/sec" = [("txs_sec", (4386 : ℚ))] := by
  refine ⟨⟨by decide, by decide, by decide⟩, ?_⟩
  rw [c7_slash_to_underscore.1 [] "4386 txs/sec" "4386" "txs/sec" [] 4386
    (by decide) (by decide) (by decide)]
  decide

/-- C9: a trailing column whose number and label are separated by two
spaces, such as `5  x`, splits into ["5", "", "x"], so the value is
recorded under the empty-string key "" instead of under the label. -/
theorem c9_empty_key :
    goSplit (goTrimSpace "5  x") ' ' = ["5", "", "x"] ∧
    parseExtraMetrics "BenchmarkFoo-8\t100\t50 ns/op\t5  x" = some [("", 5)] := by
  constructor <;> decide

/-- C1 (code evaluation): when the store version is unavailable —
always the case in passthrough mode, where the host is empty —
`encodeIndexOp` is fatal before encoding anything; and when a version is
available, it encodes three units, the third being the JSON string "\n",
not two. -/
theorem c1_three_units :
    encodeIndexOp (Except.error "unsupported protocol scheme") cfg0 bench0 none "" "" "" =
      Except.error "unsupported protocol scheme" ∧
    encodeIndexOpUnits cfg0 ⟨7, 11, 1, []⟩ bench0 none "" "" "" =
      [EncUnit.action [("_index", JVal.str "gobench"), ("_type", JVal.str "_doc")],
       EncUnit.doc [(fieldExecutedAt, JVal.time 0), (fieldName, JVal.str "BenchmarkFoo-8"),
         (fieldIterations, JVal.int 100), (fieldPkg, JVal.str ""),
         (fieldGoVersion, JVal.str "go1.17.13"), (fieldGOOS, JVal.str ""),
         (fieldGOARCH, JVal.str ""), (fieldNSPerOp, JVal.rat 50)],
       EncUnit.str "\n"] ∧
    (encodeIndexOpUnits cfg0 ⟨7, 11, 1, []⟩ bench0 none "" "" "").length = 3 := by
  refine ⟨rfl, by decide, rfl⟩

/-- C8: in direct-send mode, a failure to retrieve or parse the store
version aborts the run with the fatal mapping error, and no bulk send
occurs. -/
theorem c8_version_failure_fatal (cfg : Config) (putResult : Except String Unit)
    (lines : List String) (e : String) :
    runDirectSend cfg (Except.error e) putResult lines =
      [RunEvent.fatal ("error creating/updating mapping: " ++ e)] ∧
    (runDirectSend cfg (Except.error e) putResult lines).all
      (fun ev => !(isBulkSend ev)) = true := by
  exact ⟨rfl, rfl⟩

end Gobench
